import Mathlib

/-!
Shallow embedding of the zigzag mapping-space exploration engine
(`zigzag/classes/workload/layer_node.py`,
`zigzag/classes/stages/SpatialMappingGeneratorStage.py`,
`zigzag/classes/stages/WorkloadStage.py`,
`zigzag/parser/workload_factory.py`) and proofs about it.

Python dictionaries are embedded as association lists (`List (String × _)`)
with unique keys; dictionary access is `List.lookup` (first match).  Python
integers are `ℤ`.  A Python function that can raise an exception is embedded
as an `Option`-valued function, with `none` standing for the raised exception.
-/

/-! ## Overlap-size arithmetic (`LayerNode.calc_pr_dimension_size`)

Source (layer_node.py, lines 241-247):
```
@staticmethod
def calc_pr_dimension_size(sa, A, sb, B):
    return int(A * B - max(0, B - (sa / gcd(sa, sb))) * (A - (sb / gcd(sa, sb))))
```
`math.gcd(0, 0) = 0`, in which case the division raises `ZeroDivisionError`
(embedded as `none`).  When `gcd sa sb ≠ 0` the two divisions are exact
(the gcd divides both `sa` and `sb`), so every intermediate value is an
integer and the Python float expression is embedded by the same expression
over `ℤ` (faithful whenever no intermediate exceeds 2^53 in magnitude, the
range in which a Python float holds an integer exactly).
-/

def calc_pr_dimension_size (sa A sb B : ℤ) : Option ℤ :=
  if Int.gcd sa sb = 0 then none
  else
    some (A * B - max 0 (B - sa / (Int.gcd sa sb : ℤ)) * (A - sb / (Int.gcd sa sb : ℤ)))

/-- The number of distinct values of `sa*a + sb*b` over `a ∈ [0, A)` and
`b ∈ [0, B)`: the quantity the docstring of `calc_pr_dimension_size` (and the
spec's `count_unique` contract) promises. -/
def distinct_count (sa A sb B : ℕ) : ℕ :=
  ((Finset.range A ×ˢ Finset.range B).image fun p => sa * p.1 + sb * p.2).card

/-- C1: the claim asserts `calc_pr_dimension_size sa A sb B` equals the number
of distinct values of `sa*a + sb*b` for all positive `sa A sb B`.  It does
not: at `(sa, A, sb, B) = (1, 2, 5, 3)` the code returns `12` while only `6`
distinct values exist (the second factor `A - sb/g` of the correction term is
not clamped at `0`, so a negative factor inflates the result). -/
theorem calc_pr_dimension_size_ne_distinct_count :
    calc_pr_dimension_size 1 2 5 3 = some 12 ∧ distinct_count 1 2 5 3 = 6 ∧ (12 : ℤ) ≠ 6 := by
  refine ⟨by decide, by decide, by decide⟩

/-- C8 counterexample: swapping the two generator pairs changes the result of
`calc_pr_dimension_size`: `(1,2,7,3)` gives `16` but the swap `(7,3,1,2)`
gives `6`, so the function is not symmetric for all positive inputs. -/
theorem calc_pr_dimension_size_not_symm :
    calc_pr_dimension_size 1 2 7 3 = some 16 ∧ calc_pr_dimension_size 7 3 1 2 = some 6 ∧
      (16 : ℤ) ≠ 6 := by
  refine ⟨by decide, by decide, by decide⟩

/-- C8 (amended): `calc_pr_dimension_size` is symmetric under swapping the two
generator pairs whenever the two clamp arguments do not have strictly opposite
signs: i.e. whenever `sb/g ≤ A` and `sa/g ≤ B` both hold (the regime of
well-formed overlap counting, e.g. all convolution-shaped relations), or both
fail in the large sense (`A ≤ sb/g` and `B ≤ sa/g`). -/
theorem calc_pr_dimension_size_symm (sa A sb B : ℤ) (hsa : 0 < sa)
    (h : (sb / (Int.gcd sa sb : ℤ) ≤ A ∧ sa / (Int.gcd sa sb : ℤ) ≤ B) ∨
         (A ≤ sb / (Int.gcd sa sb : ℤ) ∧ B ≤ sa / (Int.gcd sa sb : ℤ))) :
    calc_pr_dimension_size sa A sb B = calc_pr_dimension_size sb B sa A := by
  have hg : Int.gcd sa sb ≠ 0 := by
    intro h0
    exact absurd (Int.gcd_eq_zero_iff.mp h0).1 (by omega)
  have hg2 : Int.gcd sb sa ≠ 0 := by rwa [Int.gcd_comm]
  unfold calc_pr_dimension_size
  rw [if_neg hg, if_neg hg2, Int.gcd_comm sb sa]
  rcases h with ⟨h1, h2⟩ | ⟨h1, h2⟩
  · rw [max_eq_right (by omega), max_eq_right (by omega)]
    exact congrArg some (by ring)
  · rw [max_eq_left (by omega), max_eq_left (by omega)]
    exact congrArg some (by ring)

/-- C8 witness: the symmetry theorem applied at `(1, 2, 1, 3)`. -/
theorem calc_pr_dimension_size_symm_witness :
    calc_pr_dimension_size 1 2 1 3 = calc_pr_dimension_size 1 3 1 2 :=
  calc_pr_dimension_size_symm 1 2 1 3 (by decide) (Or.inl (by decide))

/-- C9 counterexample: a single zero scaling factor is not rejected:
`calc_pr_dimension_size 0 2 1 3` silently returns the computed value `3`
instead of failing (`math.gcd(0, 1) = 1`, so no division by zero occurs). -/
theorem calc_pr_dimension_size_zero_factor_accepted :
    calc_pr_dimension_size 0 2 1 3 = some 3 := by decide

/-- C9 (amended): `calc_pr_dimension_size` fails (raises `ZeroDivisionError`,
embedded as `none`) exactly when both scaling factors are zero; a single zero
scaling factor is silently accepted and a value is computed and returned. -/
theorem calc_pr_dimension_size_fails_iff (sa A sb B : ℤ) :
    calc_pr_dimension_size sa A sb B = none ↔ sa = 0 ∧ sb = 0 := by
  unfold calc_pr_dimension_size
  constructor
  · intro h
    by_cases hg : Int.gcd sa sb = 0
    · exact Int.gcd_eq_zero_iff.mp hg
    · rw [if_neg hg] at h
      exact absurd h (by simp)
  · rintro ⟨h1, h2⟩
    subst h1; subst h2
    rfl

/-! ## Total partially-relevant dimension size (`calc_pr_dimension_size_total`)

Source (layer_node.py, lines 224-239).  The per-layer dictionaries
`loop_dim_size`, `pr_loop`, `pr_scaling_factors` and `padding` are embedded as
association lists; `self.pr_scaling_factors[dim].values()` is the list of
second components in insertion order.  A `KeyError` or a failing `assert`
is embedded as `none`.
-/

/-- `[self.loop_dim_size[related_dim] for related_dim in self.pr_loop[dim]]`:
looks each related dimension up, failing (`KeyError`) if one is missing. -/
def lookup_sizes (sizes : List (String × ℤ)) : List String → Option (List ℤ)
  | [] => some []
  | d :: rest => do
      let v ← sizes.lookup d
      let vs ← lookup_sizes sizes rest
      pure (v :: vs)

def calc_pr_dimension_size_total (loop_dim_size : List (String × ℤ))
    (pr_loop : List (String × List String))
    (pr_scaling_factors : List (String × List (String × ℤ)))
    (padding : List (String × (ℤ × ℤ))) (dim : String) : Option ℤ := do
  let related_dims ← pr_loop.lookup dim
  let related_dimension_sizes ← lookup_sizes loop_dim_size related_dims
  let factors_entry ← pr_scaling_factors.lookup dim
  let scaling_factors := factors_entry.map Prod.snd
  -- assert len(related_dimension_sizes) == len(scaling_factors) == 2
  match scaling_factors, related_dimension_sizes with
  | [s1, s2], [A, B] => do
      let total_pr_dim_size ← calc_pr_dimension_size s1 A s2 B
      let pad := (padding.lookup dim).getD (0, 0)
      pure (total_pr_dim_size - (pad.1 + pad.2))
  | _, _ => none

/-- C4: for a partially-relevant dimension `dim` whose two generators `d1, d2`
have recorded scaling factors `s1, s2` and full sizes `A, B`, the total
partially-relevant dimension size equals `calc_pr_dimension_size s1 A s2 B`
minus the total padding recorded for `dim` (padding defaulting to `(0, 0)`);
this is the value LayerNode installs as `pr_loop_dim_size[dim]` when none is
supplied explicitly. -/
theorem calc_pr_dimension_size_total_spec (loop_dim_size : List (String × ℤ))
    (pr_loop : List (String × List String))
    (pr_scaling_factors : List (String × List (String × ℤ)))
    (padding : List (String × (ℤ × ℤ))) (dim d1 d2 k1 k2 : String) (s1 s2 A B : ℤ)
    (h1 : pr_loop.lookup dim = some [d1, d2])
    (h2 : loop_dim_size.lookup d1 = some A)
    (h3 : loop_dim_size.lookup d2 = some B)
    (h4 : pr_scaling_factors.lookup dim = some [(k1, s1), (k2, s2)]) :
    calc_pr_dimension_size_total loop_dim_size pr_loop pr_scaling_factors padding dim =
      (calc_pr_dimension_size s1 A s2 B).map
        (fun t => t - (((padding.lookup dim).getD (0, 0)).1 +
                       ((padding.lookup dim).getD (0, 0)).2)) := by
  unfold calc_pr_dimension_size_total
  rw [h1]
  simp only [Option.bind_eq_bind, Option.some_bind, lookup_sizes, h2, h3, h4]
  simp only [Option.some_bind, List.map_cons, List.map_nil]
  cases h : calc_pr_dimension_size s1 A s2 B <;> simp [h]

/-- C4 witness: for the relation `IX = 1*OX + 1*FX` with `OX = 4`, `FX = 3`,
the total is `6` with no padding and `4` with padding `(1, 1)`. -/
theorem calc_pr_dimension_size_total_witness :
    calc_pr_dimension_size_total [("OX", 4), ("FX", 3)] [("IX", ["OX", "FX"])]
        [("IX", [("OX", 1), ("FX", 1)])] [] "IX" = some 6 ∧
      calc_pr_dimension_size_total [("OX", 4), ("FX", 3)] [("IX", ["OX", "FX"])]
        [("IX", [("OX", 1), ("FX", 1)])] [("IX", (1, 1))] "IX" = some 4 := by
  constructor
  · rw [calc_pr_dimension_size_total_spec _ _ _ _ "IX" "OX" "FX" "OX" "FX" 1 1 4 3
      (by rfl) (by rfl) (by rfl) (by rfl)]
    decide
  · rw [calc_pr_dimension_size_total_spec _ _ _ _ "IX" "OX" "FX" "OX" "FX" 1 1 4 3
      (by rfl) (by rfl) (by rfl) (by rfl)]
    decide

/-! ## Relevant / irrelevant loop extraction (`extract_r_ir_loop_info`)

Source (layer_node.py, lines 287-345).  The equation string is processed as
in the source: spaces are inserted around `*`, `=`, `+`
(`equation.replace(...)`), tokens are the maximal runs matching the character
class `[a-zA-Z,0-9,=,*,+]` (`re.findall`), and `+` tokens directly preceding
`=` or `+` are merged away by the index-based pop loop.  The two fuel-based
recursions below use fuel equal to the list length, which the respective
loops never exhaust (each iteration advances the index by one while the list
never grows), so they compute exactly the source loops while remaining
structurally recursive.
-/

/-- The character class `[a-zA-Z,0-9,=,*,+]` of the `re.findall` in the source. -/
def eqClassChar (c : Char) : Bool :=
  c.isAlpha || c.isDigit || c = ',' || c = '=' || c = '*' || c = '+'

/-- `equation.replace("*", " * ").replace("=", " = ").replace("+", " + ")`:
inserts a space on both sides of every `*`, `=` and `+`. -/
def spaceSeparators : List Char → List Char
  | [] => []
  | c :: rest =>
      if c = '*' || c = '=' || c = '+' then ' ' :: c :: ' ' :: spaceSeparators rest
      else c :: spaceSeparators rest

/-- `re.findall("[a-zA-Z,0-9,=,*,+]+", s)`: the maximal runs of class
characters, left to right. -/
def findallRuns : ℕ → List Char → List String
  | 0, _ => []
  | _, [] => []
  | fuel + 1, c :: rest =>
      if eqClassChar c then
        String.mk (c :: rest.takeWhile eqClassChar) ::
          findallRuns fuel (rest.dropWhile eqClassChar)
      else findallRuns fuel rest

/-- The source's in-place merge loop over `equation_disassembly`:
`for i, char in enumerate(l): if (char == "=" or char == "+") and
prev_char == "+": l.pop(i - 1); prev_char = char`.  The index keeps advancing
over the mutated list, exactly as Python's `enumerate` does. -/
def popMergeAux : ℕ → List String → ℕ → Option String → List String
  | 0, l, _, _ => l
  | fuel + 1, l, i, prev =>
      match l[i]? with
      | none => l
      | some c =>
          if (c == "=" || c == "+") && prev == some "+" then
            popMergeAux fuel (l.eraseIdx (i - 1)) (i + 1) (some c)
          else popMergeAux fuel l (i + 1) (some c)

/-- `equation_disassembly` after tokenizing and merging `+=`/`++` forms. -/
def equation_disassembly (equation : String) : List String :=
  let tokens := findallRuns (spaceSeparators equation.toList).length
    (spaceSeparators equation.toList)
  popMergeAux tokens.length tokens 0 none

/-- `str.upper()`. -/
def strUpper (s : String) : String := String.mk (s.toList.map Char.toUpper)

/-- One operand's classification: the source's
`{Relevancy.R: ..., Relevancy.IR: ..., Relevancy.PR: ...}` dictionary. -/
structure OperandLoops where
  r : List String
  ir : List String
  pr : List (String × List String)
deriving Repr, DecidableEq

/-- `[loop for loop in l if loop_dim_size[loop] != 1]`; a missing key is a
`KeyError` (`none`). -/
def filterSizeNeOne (sizes : List (String × ℤ)) : List String → Option (List String)
  | [] => some []
  | d :: rest => do
      let v ← sizes.lookup d
      let tail ← filterSizeNeOne sizes rest
      pure (if v ≠ 1 then d :: tail else tail)

/-- `[loop for loop in l if loop not in pr_loop_list and loop_dim_size[loop] != 1]`
with Python's short-circuiting `and` (no lookup when the first test fails). -/
def filterIrPr (sizes : List (String × ℤ)) (pr_loop_list : List String) :
    List String → Option (List String)
  | [] => some []
  | d :: rest =>
      if pr_loop_list.contains d then filterIrPr sizes pr_loop_list rest
      else do
        let v ← sizes.lookup d
        let tail ← filterIrPr sizes pr_loop_list rest
        pure (if v ≠ 1 then d :: tail else tail)

/-- Classification of one operand segment given its (uppercased)
`r_loop_list`: the branch on `pr_loop_remove_flag` of the source.
`list(set(dimension_list).difference(r_loop_list))` is embedded as an
order-preserving filter of `dimension_list`; only membership in the result is
ever used. -/
def segmentLoops (loop_dim_size : List (String × ℤ))
    (pr_loop : List (String × List String)) (pr_loop_list : List String)
    (r_loop_list : List String) : Option OperandLoops :=
  -- pr_loop_remove_flag = any(loop in pr_loop for loop in r_loop_list);
  -- ir_loop_list = list(set(dimension_list).difference(r_loop_list))
  if r_loop_list.any (fun lp => (pr_loop.lookup lp).isSome) then do
    let ir ← filterIrPr loop_dim_size pr_loop_list
      ((loop_dim_size.map Prod.fst).filter (fun d => !r_loop_list.contains d))
    pure (OperandLoops.mk
      (r_loop_list.filter (fun lp => !pr_loop_list.contains lp)) ir pr_loop)
  else do
    let r ← filterSizeNeOne loop_dim_size r_loop_list
    let ir ← filterSizeNeOne loop_dim_size
      ((loop_dim_size.map Prod.fst).filter (fun d => !r_loop_list.contains d))
    pure (OperandLoops.mk r ir [])

/-- The body of the `for split_loc in split_location` loop: walks the
`split_location` list carrying `begin_idx`, producing `operand_loop_dim` (as
an association list in operand order), `operand_list` and
`operand_dimensionality_order`. -/
def classifySegments (tokens : List String) (loop_dim_size : List (String × ℤ))
    (pr_loop : List (String × List String)) (pr_loop_list : List String) :
    List ℕ → ℕ →
    Option (List (String × OperandLoops) × List String × List (String × List String))
  | [], _ => some ([], [], [])
  | split_loc :: rest, begin_idx => do
      let operand ← tokens[begin_idx]?
      let r_loop_list :=
        ((tokens.drop (begin_idx + 1)).take (split_loc - (begin_idx + 1))).map strUpper
      let loops ← segmentLoops loop_dim_size pr_loop pr_loop_list r_loop_list
      let (dims_rest, ops_rest, order_rest) ←
        classifySegments tokens loop_dim_size pr_loop pr_loop_list rest (split_loc + 1)
      pure ((operand, loops) :: dims_rest, operand :: ops_rest,
        (operand, r_loop_list) :: order_rest)

/-- The reform view: the PR dictionary is dropped and, for operands that had
one, synthetic `_r`/`_ir` suffixed dimensions are appended. -/
def reformOperandLoops (pr_loop : List (String × List String))
    (old : List (String × OperandLoops)) : List (String × OperandLoops) :=
  old.map fun p =>
    if p.2.pr ≠ [] then
      (p.1, OperandLoops.mk (p.2.r ++ pr_loop.map (fun q => q.1 ++ "_r"))
        (p.2.ir ++ pr_loop.map (fun q => q.1 ++ "_ir")) [])
    else (p.1, OperandLoops.mk p.2.r p.2.ir [])

def extract_r_ir_loop_info (equation : String) (loop_dim_size : List (String × ℤ))
    (pr_loop : List (String × List String)) (pr_loop_list : List String) :
    Option (List (String × OperandLoops) × List (String × OperandLoops) ×
      List String × List (String × List String)) := do
  let tokens := equation_disassembly equation
  let split_location :=
    (tokens.enum.filter (fun p => ["=", "*", "+"].contains p.2)).map Prod.fst ++
      [tokens.length]
  let (operand_loop_dim, operand_list, operand_dimensionality_order) ←
    classifySegments tokens loop_dim_size pr_loop pr_loop_list split_location 0
  pure (operand_loop_dim, reformOperandLoops pr_loop operand_loop_dim,
    operand_list, operand_dimensionality_order)

/-- C2 counterexample: for the layer with equation `O[ox]=W[fx]*I[b][ix]`,
dimension sizes `{B: 1, OX: 4, FX: 3}` and the partially-relevant relation
`IX = OX + FX`, the size-1 dimension `B` appears in the Relevant list of the
operand `I` (the size-1 filter is absent on the Relevant branch of operands
with partially-relevant dimensions). -/
theorem extract_size_one_in_relevant :
    (extract_r_ir_loop_info "O[ox]=W[fx]*I[b][ix]" [("B", 1), ("OX", 4), ("FX", 3)]
        [("IX", ["OX", "FX"])] ["IX", "OX", "FX"]).map (fun out => out.1.lookup "I") =
      some (some (OperandLoops.mk ["B"] [] [("IX", ["OX", "FX"])])) ∧
    ([("B", (1 : ℤ)), ("OX", 4), ("FX", 3)].lookup "B") = some 1 := by
  exact ⟨by decide, by decide⟩

theorem filterSizeNeOne_no_one (sizes : List (String × ℤ)) :
    ∀ l out, filterSizeNeOne sizes l = some out → ∀ d ∈ out, sizes.lookup d ≠ some 1 := by
  intro l
  induction l with
  | nil =>
      intro out h
      simp only [filterSizeNeOne, Option.some.injEq] at h
      subst h
      simp
  | cons x rest ih =>
      intro out h
      simp only [filterSizeNeOne, Option.bind_eq_bind] at h
      cases hv : sizes.lookup x with
      | none => rw [hv] at h; simp at h
      | some v =>
          rw [hv] at h
          simp only [Option.some_bind] at h
          cases ht : filterSizeNeOne sizes rest with
          | none => rw [ht] at h; simp at h
          | some tail =>
              rw [ht] at h
              simp only [Option.some_bind, Option.pure_def, Option.some.injEq] at h
              subst h
              intro d hd
              split_ifs at hd with hv1
              · rcases List.mem_cons.mp hd with hx | hx
                · subst hx; rw [hv]; intro hc; exact hv1 (by injection hc)
                · exact ih tail ht d hx
              · exact ih tail ht d hd

theorem filterIrPr_no_one (sizes : List (String × ℤ)) (pr_loop_list : List String) :
    ∀ l out, filterIrPr sizes pr_loop_list l = some out →
      ∀ d ∈ out, sizes.lookup d ≠ some 1 := by
  intro l
  induction l with
  | nil =>
      intro out h
      simp only [filterIrPr, Option.some.injEq] at h
      subst h
      simp
  | cons x rest ih =>
      intro out h
      simp only [filterIrPr] at h
      split_ifs at h with hcont
      · exact ih out h
      · simp only [Option.bind_eq_bind] at h
        cases hv : sizes.lookup x with
        | none => rw [hv] at h; simp at h
        | some v =>
            rw [hv] at h
            simp only [Option.some_bind] at h
            cases ht : filterIrPr sizes pr_loop_list rest with
            | none => rw [ht] at h; simp at h
            | some tail =>
                rw [ht] at h
                simp only [Option.some_bind, Option.pure_def, Option.some.injEq] at h
                subst h
                intro d hd
                split_ifs at hd with hv1
                · rcases List.mem_cons.mp hd with hx | hx
                  · subst hx; rw [hv]; intro hc; exact hv1 (by injection hc)
                  · exact ih tail ht d hx
                · exact ih tail ht d hd

theorem segmentLoops_no_one (sizes : List (String × ℤ))
    (pr_loop : List (String × List String)) (pr_loop_list : List String)
    (r_loop_list : List String) (loops : OperandLoops)
    (h : segmentLoops sizes pr_loop pr_loop_list r_loop_list = some loops) :
    (∀ d ∈ loops.ir, sizes.lookup d ≠ some 1) ∧
      (loops.pr = [] → ∀ d ∈ loops.r, sizes.lookup d ≠ some 1) := by
  unfold segmentLoops at h
  split_ifs at h with hflag
  · simp only [Option.bind_eq_bind] at h
    cases hir : filterIrPr sizes pr_loop_list
        ((sizes.map Prod.fst).filter (fun d => !r_loop_list.contains d)) with
    | none => rw [hir] at h; simp at h
    | some ir =>
        rw [hir] at h
        simp only [Option.some_bind, Option.pure_def, Option.some.injEq] at h
        subst h
        refine ⟨fun d hd => filterIrPr_no_one sizes pr_loop_list _ ir hir d hd, ?_⟩
        intro hpr
        exfalso
        have hpr2 : pr_loop = [] := hpr
        simp only [List.any_eq_true, Option.isSome_iff_exists] at hflag
        obtain ⟨lp, _, v, hv⟩ := hflag
        rw [hpr2] at hv
        simp [List.lookup] at hv
  · simp only [Option.bind_eq_bind] at h
    cases hr : filterSizeNeOne sizes r_loop_list with
    | none => rw [hr] at h; simp at h
    | some r =>
        rw [hr] at h
        simp only [Option.some_bind] at h
        cases hir : filterSizeNeOne sizes
            ((sizes.map Prod.fst).filter (fun d => !r_loop_list.contains d)) with
        | none => rw [hir] at h; simp at h
        | some ir =>
            rw [hir] at h
            simp only [Option.some_bind, Option.pure_def, Option.some.injEq] at h
            subst h
            exact ⟨fun d hd => filterSizeNeOne_no_one sizes _ ir hir d hd,
              fun _ d hd => filterSizeNeOne_no_one sizes _ r hr d hd⟩

theorem classifySegments_no_one (tokens : List String) (sizes : List (String × ℤ))
    (pr_loop : List (String × List String)) (pr_loop_list : List String) :
    ∀ locs begin_idx out,
      classifySegments tokens sizes pr_loop pr_loop_list locs begin_idx = some out →
      ∀ op loops, (op, loops) ∈ out.1 →
        (∀ d ∈ loops.ir, sizes.lookup d ≠ some 1) ∧
          (loops.pr = [] → ∀ d ∈ loops.r, sizes.lookup d ≠ some 1) := by
  intro locs
  induction locs with
  | nil =>
      intro begin_idx out h op loops hmem
      simp only [classifySegments, Option.some.injEq] at h
      subst h
      simp at hmem
  | cons split_loc rest ih =>
      intro begin_idx out h op loops hmem
      simp only [classifySegments, Option.bind_eq_bind] at h
      cases htok : tokens[begin_idx]? with
      | none => rw [htok] at h; simp at h
      | some operand =>
          rw [htok] at h
          simp only [Option.some_bind] at h
          cases hseg : segmentLoops sizes pr_loop pr_loop_list
              (((tokens.drop (begin_idx + 1)).take (split_loc - (begin_idx + 1))).map
                strUpper) with
          | none => rw [hseg] at h; simp at h
          | some loops0 =>
              rw [hseg] at h
              simp only [Option.some_bind] at h
              cases hrec : classifySegments tokens sizes pr_loop pr_loop_list rest
                  (split_loc + 1) with
              | none => rw [hrec] at h; simp at h
              | some out_rest =>
                  rw [hrec] at h
                  simp only [Option.some_bind, Option.pure_def, Option.some.injEq] at h
                  subst h
                  rcases List.mem_cons.mp hmem with hx | hx
                  · obtain ⟨h1, h2⟩ := Prod.ext_iff.mp hx
                    rw [show loops = loops0 from h2]
                    exact segmentLoops_no_one sizes pr_loop pr_loop_list _ loops0 hseg
                  · exact ih (split_loc + 1) out_rest hrec op loops hx

/-- C2 (amended): size-1 dimensions never appear in any operand's Irrelevant
list, and never in the Relevant list of an operand without partially-relevant
dimensions; for an operand with partially-relevant dimensions, however,
size-1 dimensions are not filtered from the Relevant list (the source's
filter is commented out there). -/
theorem extract_r_ir_no_size_one (equation : String) (sizes : List (String × ℤ))
    (pr_loop : List (String × List String)) (pr_loop_list : List String)
    (out : List (String × OperandLoops) × List (String × OperandLoops) ×
      List String × List (String × List String))
    (h : extract_r_ir_loop_info equation sizes pr_loop pr_loop_list = some out)
    (op : String) (loops : OperandLoops) (hmem : (op, loops) ∈ out.1) :
    (∀ d ∈ loops.ir, sizes.lookup d ≠ some 1) ∧
      (loops.pr = [] → ∀ d ∈ loops.r, sizes.lookup d ≠ some 1) := by
  unfold extract_r_ir_loop_info at h
  simp only [Option.bind_eq_bind] at h
  cases hc : classifySegments (equation_disassembly equation) sizes pr_loop pr_loop_list
      (((equation_disassembly equation).enum.filter
          (fun p => ["=", "*", "+"].contains p.2)).map Prod.fst ++
        [(equation_disassembly equation).length]) 0 with
  | none => rw [hc] at h; simp at h
  | some res =>
      rw [hc] at h
      obtain ⟨a, b, c⟩ := res
      simp only [Option.some_bind, Option.pure_def, Option.some.injEq] at h
      subst h
      exact classifySegments_no_one _ sizes pr_loop pr_loop_list _ 0 (a, b, c) hc op
        loops hmem

/-- C2 witness: the amended theorem applied to operand `O` of the concrete
layer used in the counterexample. -/
theorem extract_r_ir_no_size_one_witness :
    ([("B", (1 : ℤ)), ("OX", 4), ("FX", 3)].lookup "FX") ≠ some 1 := by
  have h := extract_r_ir_no_size_one "O[ox]=W[fx]*I[b][ix]"
    [("B", 1), ("OX", 4), ("FX", 3)] [("IX", ["OX", "FX"])] ["IX", "OX", "FX"]
    ⟨[("O", ⟨["OX"], ["FX"], []⟩), ("W", ⟨["FX"], ["OX"], []⟩),
        ("I", ⟨["B"], [], [("IX", ["OX", "FX"])]⟩)],
      [("O", ⟨["OX"], ["FX"], []⟩), ("W", ⟨["FX"], ["OX"], []⟩),
        ("I", ⟨["B", "IX_r"], ["IX_ir"], []⟩)],
      ["O", "W", "I"],
      [("O", ["OX"]), ("W", ["FX"]), ("I", ["B", "IX"])]⟩
    rfl "O" ⟨["OX"], ["FX"], []⟩ (by decide)
  exact h.1 "FX" (by decide)

/-! ## LayerNodeFactory operand classification (`workload_factory.py`)

Source (workload_factory.py, lines 137-148).  `LayerOperand(name)` is a
symbolic wrapper around the name and is embedded as the name itself;
`node_data["operand_source"]` is a dictionary mapping operand names to source
layer ids, embedded as an association list with unique keys.
-/

/-- `create_constant_operands`: the operands whose recorded source equals the
layer's own id. -/
def create_constant_operands (node_id : ℤ) (operand_source : List (String × ℤ)) :
    List String :=
  (operand_source.filter (fun p => p.2 = node_id)).map Prod.fst

/-- `create_operand_source`: the operand-source entries whose source differs
from the layer's own id. -/
def create_operand_source (node_id : ℤ) (operand_source : List (String × ℤ)) :
    List (String × ℤ) :=
  operand_source.filter (fun p => p.2 ≠ node_id)

/-- C10: over a validated layer definition (unique operand names), an operand
is classified constant exactly when its `operand_source` entry equals the
layer's own id, and it is kept in `input_operand_source` exactly when its
source differs — so every `operand_source` entry lands in exactly one of the
two. -/
theorem operand_source_partition (node_id : ℤ) (operand_source : List (String × ℤ))
    (hnodup : (operand_source.map Prod.fst).Nodup) :
    ∀ p ∈ operand_source,
      (p.1 ∈ create_constant_operands node_id operand_source ↔ p.2 = node_id) ∧
        (p.1 ∈ (create_operand_source node_id operand_source).map Prod.fst ↔
          p.2 ≠ node_id) := by
  intro p hp
  have hinj := List.inj_on_of_nodup_map hnodup
  constructor
  · constructor
    · intro hmem
      obtain ⟨q, hq, hq1⟩ := List.mem_map.mp hmem
      obtain ⟨hqmem, hqid⟩ := List.mem_filter.mp hq
      have : q = p := hinj hqmem hp hq1
      subst this
      exact of_decide_eq_true hqid
    · intro h2
      exact List.mem_map.mpr ⟨p, List.mem_filter.mpr ⟨hp, decide_eq_true h2⟩, rfl⟩
  · constructor
    · intro hmem
      obtain ⟨q, hq, hq1⟩ := List.mem_map.mp hmem
      obtain ⟨hqmem, hqid⟩ := List.mem_filter.mp hq
      have : q = p := hinj hqmem hp hq1
      subst this
      exact of_decide_eq_true hqid
    · intro h2
      exact List.mem_map.mpr ⟨p, List.mem_filter.mpr ⟨hp, decide_eq_true h2⟩, rfl⟩

/-- C10 witness: the partition theorem applied to a concrete layer with id 2
and sources `{W: 2, I: 0}`: `W` is constant and `I` is an input source. -/
theorem operand_source_partition_witness :
    ("W" ∈ create_constant_operands 2 [("W", 2), ("I", 0)] ↔ (2 : ℤ) = 2) ∧
      ("W" ∈ (create_operand_source 2 [("W", 2), ("I", 0)]).map Prod.fst ↔
        (2 : ℤ) ≠ 2) :=
  operand_source_partition 2 [("W", 2), ("I", 0)] (by decide) ("W", 2) (by decide)

/-! ## WorkloadStage (`WorkloadStage.py`)

Source (WorkloadStage.py, lines 24-55).  The workload node and the
accelerator core are embedded by the fields `run` reads: a node is dummy iff
`isinstance(layer, DummyNode)`; `operator_type` is
`layer.layer_attrs["operator_type"]` with `none` for the `KeyError` branch
(onnx-loaded workloads); `pe_type` is
`getattr(core.operational_array, "pe_type", None)`.
-/

structure WNode where
  id : ℤ
  isDummy : Bool
  core_allocation : ℤ
  operator_type : Option String
  name : String
deriving Repr, DecidableEq

structure WCore where
  id : ℤ
  pe_type : Option String
deriving Repr, DecidableEq

structure WAccelerator where
  name : String
  cores : List WCore
deriving Repr, DecidableEq

/-- Modelled from the spec: the hardware description (outside src) provides
per-core access `accelerator.get_core(core_id)`; a missing core is a failed
lookup. -/
def WAccelerator.get_core (accel : WAccelerator) (core_id : ℤ) : Option WCore :=
  accel.cores.find? (fun c => c.id == core_id)

/-- `(pe_type in ["in_sram_computing"]) and (layer_type in ["Pooling", "Add"])`. -/
def imc_skip (core : WCore) (layer_type : Option String) : Bool :=
  (core.pe_type == some "in_sram_computing") &&
    (layer_type == some "Pooling" || layer_type == some "Add")

/-- The sequence of nodes for which `WorkloadStage.run` constructs a
sub-pipeline, in visit order.  The input list is the output of
`nx.topological_sort` (networkx is outside src; modelled from the spec: a
topological iteration order of the acyclic workload graph).  `none` embeds
the exception raised when a processed node's core is missing. -/
def workloadStage_processed (accel : WAccelerator) : List WNode → Option (List WNode)
  | [] => some []
  | n :: rest =>
      if n.isDummy then workloadStage_processed accel rest
      else do
        let core ← accel.get_core n.core_allocation
        if imc_skip core n.operator_type then workloadStage_processed accel rest
        else do
          let tail ← workloadStage_processed accel rest
          pure (n :: tail)

/-- `WorkloadStage.run` with the downstream sub-pipeline abstracted as `sub`:
each yielded `(cme, extra_info)` of the sub-pipeline is re-tagged as
`(cme, (layer, extra_info))`. -/
def workloadStage_run {γ ε : Type} (accel : WAccelerator) (sub : WNode → List (γ × ε)) :
    List WNode → Option (List (γ × (WNode × ε)))
  | [] => some []
  | n :: rest =>
      if n.isDummy then workloadStage_run accel sub rest
      else do
        let core ← accel.get_core n.core_allocation
        if imc_skip core n.operator_type then workloadStage_run accel sub rest
        else do
          let tail ← workloadStage_run accel sub rest
          pure ((sub n).map (fun p => (p.1, (n, p.2))) ++ tail)

/-- The processed-node sequence is exactly the sequence of sub-pipeline
launches of `workloadStage_run`: the run output is the concatenation, node by
processed node, of that node's re-tagged sub-pipeline results. -/
theorem workloadStage_run_eq {γ ε : Type} (accel : WAccelerator)
    (sub : WNode → List (γ × ε)) (order : List WNode) :
    workloadStage_run accel sub order =
      (workloadStage_processed accel order).map
        (fun ns => ns.flatMap (fun n => (sub n).map (fun p => (p.1, (n, p.2))))) := by
  induction order with
  | nil => rfl
  | cons n rest ih =>
      simp only [workloadStage_run, workloadStage_processed]
      split_ifs with hd
      · exact ih
      · simp only [Option.bind_eq_bind]
        cases hc : accel.get_core n.core_allocation with
        | none => rfl
        | some core =>
            simp only [Option.some_bind]
            split_ifs with hs
            · exact ih
            · rw [ih]
              cases workloadStage_processed accel rest <;> rfl

/-- C7 counterexample: a non-placeholder Pooling layer allocated to an
`in_sram_computing` core is skipped entirely by WorkloadStage (no
sub-pipeline is constructed), so not all non-placeholder nodes are visited. -/
theorem workloadStage_skips_nonplaceholder :
    workloadStage_processed (WAccelerator.mk "imc" [WCore.mk 1 (some "in_sram_computing")])
        [WNode.mk 7 false 1 (some "Pooling") "pool"] = some [] ∧
      (WNode.mk 7 false 1 (some "Pooling") "pool").isDummy = false := by
  exact ⟨rfl, rfl⟩

theorem workloadStage_processed_sublist (accel : WAccelerator) :
    ∀ order ns, workloadStage_processed accel order = some ns → ns.Sublist order := by
  intro order
  induction order with
  | nil =>
      intro ns h
      simp only [workloadStage_processed, Option.some.injEq] at h
      subst h
      exact List.Sublist.refl []
  | cons n rest ih =>
      intro ns h
      simp only [workloadStage_processed] at h
      split_ifs at h with hd
      · exact (ih ns h).cons n
      · simp only [Option.bind_eq_bind] at h
        cases hc : accel.get_core n.core_allocation with
        | none => rw [hc] at h; simp at h
        | some core =>
            rw [hc] at h
            simp only [Option.some_bind] at h
            split_ifs at h with hs
            · exact (ih ns h).cons n
            · cases ht : workloadStage_processed accel rest with
              | none => rw [ht] at h; simp at h
              | some tail =>
                  rw [ht] at h
                  simp only [Option.some_bind, Option.pure_def, Option.some.injEq] at h
                  subst h
                  exact (ih tail ht).cons₂ n

/-- C7 (amended): on a topological order of the acyclic workload graph,
WorkloadStage constructs a sub-pipeline for no placeholder (dummy) node,
visits every non-placeholder node except those excluded by the
in-memory-compute policy (operator type Pooling/Add on an `in_sram_computing`
core), and visits them in an order in which every predecessor precedes its
successors. -/
theorem workloadStage_topological (accel : WAccelerator) (edges : List (ℤ × ℤ))
    (order : List WNode) (ns : List WNode)
    (hproc : workloadStage_processed accel order = some ns)
    (htopo : order.Pairwise (fun a b => (b.id, a.id) ∉ edges)) :
    (∀ n ∈ ns, n.isDummy = false) ∧
      (∀ n ∈ order, n.isDummy = false →
        (∀ core, accel.get_core n.core_allocation = some core →
          imc_skip core n.operator_type = false) → n ∈ ns) ∧
      ns.Pairwise (fun a b => (b.id, a.id) ∉ edges) := by
  refine ⟨?_, ?_, htopo.sublist (workloadStage_processed_sublist accel order ns hproc)⟩
  · clear htopo
    induction order generalizing ns with
    | nil =>
        simp only [workloadStage_processed, Option.some.injEq] at hproc
        subst hproc
        simp
    | cons n rest ih =>
        simp only [workloadStage_processed] at hproc
        split_ifs at hproc with hd
        · exact ih ns hproc
        · simp only [Option.bind_eq_bind] at hproc
          cases hc : accel.get_core n.core_allocation with
          | none => rw [hc] at hproc; simp at hproc
          | some core =>
              rw [hc] at hproc
              simp only [Option.some_bind] at hproc
              split_ifs at hproc with hs
              · exact ih ns hproc
              · cases ht : workloadStage_processed accel rest with
                | none => rw [ht] at hproc; simp at hproc
                | some tail =>
                    rw [ht] at hproc
                    simp only [Option.some_bind, Option.pure_def, Option.some.injEq]
                      at hproc
                    subst hproc
                    intro m hm
                    rcases List.mem_cons.mp hm with hx | hx
                    · subst hx; simpa using hd
                    · exact ih tail ht m hx
  · clear htopo
    induction order generalizing ns with
    | nil => intro m hm; simp at hm
    | cons n rest ih =>
        intro m hm hmd hmskip
        simp only [workloadStage_processed] at hproc
        rcases List.mem_cons.mp hm with hx | hx
        · subst hx
          rw [if_neg (by simp [hmd])] at hproc
          simp only [Option.bind_eq_bind] at hproc
          cases hc : accel.get_core m.core_allocation with
          | none => rw [hc] at hproc; simp at hproc
          | some core =>
              rw [hc] at hproc
              simp only [Option.some_bind] at hproc
              rw [if_neg (by simp [hmskip core hc])] at hproc
              cases ht : workloadStage_processed accel rest with
              | none => rw [ht] at hproc; simp at hproc
              | some tail =>
                  rw [ht] at hproc
                  simp only [Option.some_bind, Option.pure_def, Option.some.injEq]
                    at hproc
                  subst hproc
                  exact List.mem_cons_self m tail
        · split_ifs at hproc with hd
          · exact ih ns hproc m hx hmd hmskip
          · simp only [Option.bind_eq_bind] at hproc
            cases hc : accel.get_core n.core_allocation with
            | none => rw [hc] at hproc; simp at hproc
            | some core =>
                rw [hc] at hproc
                simp only [Option.some_bind] at hproc
                split_ifs at hproc with hs
                · exact ih ns hproc m hx hmd hmskip
                · cases ht : workloadStage_processed accel rest with
                  | none => rw [ht] at hproc; simp at hproc
                  | some tail =>
                      rw [ht] at hproc
                      simp only [Option.some_bind, Option.pure_def,
                        Option.some.injEq] at hproc
                      subst hproc
                      exact List.mem_cons_of_mem n (ih tail ht m hx hmd hmskip)

/-- C7 witness: the topological-visit theorem applied to a two-layer graph
with one dummy node in between, on a plain (non-IMC) core. -/
theorem workloadStage_topological_witness :
    (WNode.mk 1 false 1 none "a").isDummy = false ∧
      (WNode.mk 3 false 1 none "c") ∈ [WNode.mk 1 false 1 none "a",
        WNode.mk 3 false 1 none "c"] := by
  have h := workloadStage_topological (WAccelerator.mk "acc" [WCore.mk 1 none])
    [((1 : ℤ), (3 : ℤ))]
    [WNode.mk 1 false 1 none "a", WNode.mk 2 true 1 none "b", WNode.mk 3 false 1 none "c"]
    [WNode.mk 1 false 1 none "a", WNode.mk 3 false 1 none "c"] rfl (by decide)
  refine ⟨h.1 _ (by decide), h.2.1 (WNode.mk 3 false 1 none "c") (by decide) rfl ?_⟩
  intro core hcore
  have : core = WCore.mk 1 none := by
    simpa [WAccelerator.get_core, List.find?] using hcore.symm
  subst this
  rfl

/-! ## SpatialMappingGeneratorStage.run (`SpatialMappingGeneratorStage.py`)

Source (SpatialMappingGeneratorStage.py, lines 69-129).  A user spatial
mapping is a dictionary `OA dimension name → (layer dimension → unroll
factor)`; `x in user_provided_spatial_mappings` is key membership.  The
`UserSpatialMappingGenerator` collaborator (outside the specified core) is
abstracted as the finite list `generated` of the mappings its `run()`
yields, in order; the conversion sub-pipeline is abstracted as the function
`sub` from the (possibly adapted) accelerator and the candidate mapping to
its yielded `(cme, extra_info)` list; the diagonal-mapping adapter is
abstracted as `modify`.  A cost-model evaluation carries the accelerator it
was evaluated on (`cme.accelerator`), which the stage rewrites back to the
original accelerator when adaptation occurred.
-/

def UserSpatialMapping : Type := List (String × List (String × ℤ))

instance : DecidableEq UserSpatialMapping := by
  unfold UserSpatialMapping
  infer_instance

structure CMELike (α γ : Type) where
  accelerator : α
  payload : γ
deriving Repr, DecidableEq

/-- The body of the `for user_spatial_mapping in user_spatial_mappings`
loop for one candidate: optionally adapt the hardware, run the conversion
sub-pipeline on a layer copy carrying the candidate, restore the original
accelerator in each yielded result if adaptation occurred, and re-tag with
the candidate mapping. -/
def smg_launch {α γ ε : Type} (accelerator : α) (enable_weight_diagonal_mapping : Bool)
    (modify : UserSpatialMapping → Bool × α)
    (sub : α → UserSpatialMapping → List (CMELike α γ × ε))
    (usm : UserSpatialMapping) : List (CMELike α γ × (UserSpatialMapping × ε)) :=
  let upd := if enable_weight_diagonal_mapping then modify usm else (false, accelerator)
  let acc2 := if enable_weight_diagonal_mapping && upd.1 then upd.2 else accelerator
  (sub acc2 usm).map (fun p =>
    (if enable_weight_diagonal_mapping && upd.1 then CMELike.mk accelerator p.1.payload
     else p.1, (usm, p.2)))

/-- `SpatialMappingGeneratorStage.run`: the candidate source is the user
mapping alone when it already assigns every operational-array dimension,
otherwise the generator collaborator's output list; each candidate is
launched once, in order. -/
def spatialMappingGeneratorStage_run {α γ ε : Type} (accelerator : α)
    (enable_weight_diagonal_mapping : Bool) (oa_dims : List String)
    (user_provided_spatial_mappings : UserSpatialMapping)
    (generated : List UserSpatialMapping)
    (modify : UserSpatialMapping → Bool × α)
    (sub : α → UserSpatialMapping → List (CMELike α γ × ε)) :
    List (CMELike α γ × (UserSpatialMapping × ε)) :=
  let user_spatial_mappings :=
    if oa_dims.all (fun d => (user_provided_spatial_mappings.lookup d).isSome)
    then [user_provided_spatial_mappings]
    else generated
  user_spatial_mappings.flatMap
    (smg_launch accelerator enable_weight_diagonal_mapping modify sub)

/-- C3: when the user-provided spatial mapping already assigns every
operational-array dimension, the stage launches exactly one candidate — the
user mapping itself; otherwise it launches exactly the generator
collaborator's candidates, each exactly once, in the order produced. -/
theorem spatialMappingGeneratorStage_run_candidates {α γ ε : Type} (accelerator : α)
    (enable_weight_diagonal_mapping : Bool) (oa_dims : List String)
    (user : UserSpatialMapping) (generated : List UserSpatialMapping)
    (modify : UserSpatialMapping → Bool × α)
    (sub : α → UserSpatialMapping → List (CMELike α γ × ε)) :
    ((∀ d ∈ oa_dims, (user.lookup d).isSome) →
      spatialMappingGeneratorStage_run accelerator enable_weight_diagonal_mapping
          oa_dims user generated modify sub =
        smg_launch accelerator enable_weight_diagonal_mapping modify sub user) ∧
      ((¬ ∀ d ∈ oa_dims, (user.lookup d).isSome) →
        spatialMappingGeneratorStage_run accelerator enable_weight_diagonal_mapping
            oa_dims user generated modify sub =
          generated.flatMap
            (smg_launch accelerator enable_weight_diagonal_mapping modify sub)) := by
  constructor
  · intro hall
    unfold spatialMappingGeneratorStage_run
    rw [if_pos]
    · simp
    · rw [List.all_eq_true]
      intro d hd
      exact (hall d hd)
  · intro hnall
    unfold spatialMappingGeneratorStage_run
    rw [if_neg]
    intro hcontra
    rw [List.all_eq_true] at hcontra
    exact hnall (fun d hd => hcontra d hd)

/-- C3 witness: the candidate-selection theorem applied to a 1-dimensional
array covered by the user mapping, and to a 2-dimensional array that is not
covered (empty generator output). -/
theorem spatialMappingGeneratorStage_run_candidates_witness :
    spatialMappingGeneratorStage_run (0 : ℕ) false ["D1"]
        ([("D1", [("K", 8)])] : UserSpatialMapping) []
        (fun _ => (false, 0)) (fun _ _ => ([] : List (CMELike ℕ ℕ × ℕ))) =
      smg_launch 0 false (fun _ => (false, 0)) (fun _ _ => [])
        ([("D1", [("K", 8)])] : UserSpatialMapping) ∧
      spatialMappingGeneratorStage_run (0 : ℕ) false ["D1", "D2"]
          ([("D1", [("K", 8)])] : UserSpatialMapping) []
          (fun _ => (false, 0)) (fun _ _ => ([] : List (CMELike ℕ ℕ × ℕ))) =
        ([] : List UserSpatialMapping).flatMap
          (smg_launch 0 false (fun _ => (false, 0)) (fun _ _ => [])) := by
  constructor
  · exact (spatialMappingGeneratorStage_run_candidates 0 false ["D1"]
      [("D1", [("K", 8)])] [] (fun _ => (false, 0)) (fun _ _ => [])).1
      (by intro d hd; fin_cases hd; rfl)
  · exact (spatialMappingGeneratorStage_run_candidates 0 false ["D1", "D2"]
      [("D1", [("K", 8)])] [] (fun _ => (false, 0)) (fun _ _ => [])).2
      (by intro hcontra; exact absurd (hcontra "D2" (by decide)) (by decide))

/-! ## Diagonal-Mapping Adapter (`modify_innermost_input_mem_size`)

Source (SpatialMappingGeneratorStage.py, lines 131-226).  The hardware
classes (MemoryInstance, MemoryLevel, MemoryHierarchy, Core, Accelerator)
are outside the specified core; they are modelled from the spec as value
records: per memory level, its memory instance (with a size), the memory
operands it holds, its port-allocation metadata (opaque payload), its served
array-dimension set, and whether it is one of the inner memories
(`get_inner_memories`).  `served_dimensions_vec` is modelled as the
one-element list holding the served set, so the source's
`served_dimensions_vec[0]` is the served set itself.  `copy.deepcopy` and
`pickle_deepcopy` are the identity on values.  Python object identity of the
selected level (`memory_level == act_innermost_mem_level`) is embedded as
index equality in the hierarchy's level list.  `none` embeds a raised
exception (`IndexError`/`KeyError`). -/

structure MemoryInstance where
  name : String
  size : ℤ
deriving Repr, DecidableEq

structure MemoryLevel where
  memory_instance : MemoryInstance
  operands : List String
  port_alloc_raw : List String
  served_dimensions : List String
  is_inner : Bool
deriving Repr, DecidableEq

/-- Modelled from the spec: each memory level exposes one served
array-dimension set; the vector accessor holds exactly that set. -/
def MemoryLevel.served_dimensions_vec (lvl : MemoryLevel) : List (List String) :=
  [lvl.served_dimensions]

structure MemoryHierarchy where
  name : String
  mem_level_list : List MemoryLevel
deriving Repr, DecidableEq

/-- Modelled from the spec: `get_inner_memories` returns the memory levels
closest to the operational array, here flagged `is_inner`, in hierarchy
order. -/
def MemoryHierarchy.get_inner_memories (mh : MemoryHierarchy) : List MemoryLevel :=
  mh.mem_level_list.filter (fun lvl => lvl.is_inner)

structure DiagCore where
  id : ℤ
  operational_array : List String
  memory_hierarchy : MemoryHierarchy
  dataflows : Option String
deriving Repr, DecidableEq

structure DiagAccelerator where
  name : String
  cores : List DiagCore
deriving Repr, DecidableEq

/-- Modelled from the spec: per-core access on the hardware description. -/
def DiagAccelerator.get_core (accel : DiagAccelerator) (core_id : ℤ) : Option DiagCore :=
  accel.cores.find? (fun c => c.id == core_id)

/-- The layer fields `modify_innermost_input_mem_size` reads. -/
structure DiagLayer where
  constant_operands : List String
  input_operands : List String
  memory_operand_links : List (String × String)
  operand_loop_dim : List (String × OperandLoops)
deriving Repr, DecidableEq

/-- The `for memory_level in innermost_levels` search: the source loop keeps
reassigning, so the LAST inner level holding the activation memory operand
wins; the result is its index in `mem_level_list` (Python object identity)
together with the level. -/
def lastInnerAct (mh : MemoryHierarchy) (mem_op : String) : Option (ℕ × MemoryLevel) :=
  (mh.mem_level_list.enum.filter
    (fun p => p.2.is_inner && p.2.operands.contains mem_op)).getLast?

/-- `mem_scaling_factor`: the product of the unroll factors, on the served
array dimension, of the layer dimensions that are irrelevant to the
stationary (weight) operand; `1` when the served dimension carries no
spatial-mapping loop. -/
def diag_mem_scaling_factor (usm : UserSpatialMapping) (served_name : String)
    (weight_ir_layer_dims : List String) : ℤ :=
  match usm.lookup served_name with
  | none => 1
  | some act_served_oa_mapping =>
      act_served_oa_mapping.foldl
        (fun acc q => if weight_ir_layer_dims.contains q.1 then acc * q.2 else acc) 1

def modify_innermost_input_mem_size (accelerator : DiagAccelerator) (layer : DiagLayer)
    (core_id : ℤ) (user_spatial_mapping : UserSpatialMapping) :
    Option (Bool × DiagAccelerator) := do
  let core ← accelerator.get_core core_id
  let memory_hierarchy := core.memory_hierarchy
  if layer.constant_operands.length > 1 then
    pure (false, accelerator)
  else do
    let const_operand ← layer.constant_operands[0]?
    let act_operand ← (layer.input_operands.filter (fun op => op ≠ const_operand))[0]?
    let const_loops ← layer.operand_loop_dim.lookup const_operand
    let act_mem_op ← layer.memory_operand_links.lookup act_operand
    match lastInnerAct memory_hierarchy act_mem_op with
    | none => pure (false, accelerator)
    | some (idx, act_level) =>
        if act_level.served_dimensions.length ≠ 1 then pure (false, accelerator)
        else do
          let act_served_oa_dim_name ← act_level.served_dimensions[0]?
          let mem_scaling_factor :=
            diag_mem_scaling_factor user_spatial_mapping act_served_oa_dim_name
              const_loops.ir
          if mem_scaling_factor = 1 then pure (false, accelerator)
          else
            pure (true, DiagAccelerator.mk
              (accelerator.name ++ "-supporting-diagonal-map")
              [DiagCore.mk core.id core.operational_array
                (MemoryHierarchy.mk
                  (memory_hierarchy.name ++ "-supporting-diagonal-map")
                  (memory_hierarchy.mem_level_list.enum.map (fun p =>
                    if p.1 = idx then
                      MemoryLevel.mk
                        (MemoryInstance.mk p.2.memory_instance.name
                          (p.2.memory_instance.size * mem_scaling_factor))
                        p.2.operands p.2.port_alloc_raw p.2.served_dimensions
                        p.2.is_inner
                    else p.2)))
                core.dataflows])

/-- Concrete fixtures: a weight-stationary layer on a two-dimensional array,
with an inner activation register file (size 16) serving `D1`, an inner
weight register file, and a shared non-inner SRAM. -/
def diagLvlI : MemoryLevel := MemoryLevel.mk (MemoryInstance.mk "rf_I" 16) ["I1"] ["pa"] ["D1"] true

def diagLvlW : MemoryLevel := MemoryLevel.mk (MemoryInstance.mk "rf_W" 8) ["I2"] ["pb"] ["D2"] true

def diagLvlS : MemoryLevel :=
  MemoryLevel.mk (MemoryInstance.mk "sram" 1024) ["I1", "I2", "O"] ["pc"] ["D1", "D2"] false

def diagCore1 : DiagCore :=
  DiagCore.mk 1 ["D1", "D2"] (MemoryHierarchy.mk "mh" [diagLvlI, diagLvlW, diagLvlS]) none

def diagAccel1 : DiagAccelerator := DiagAccelerator.mk "acc" [diagCore1]

def diagLayer1 : DiagLayer :=
  DiagLayer.mk ["W"] ["W", "I"] [("O", "O"), ("W", "I2"), ("I", "I1")]
    [("W", OperandLoops.mk ["K", "C"] ["OX"] [])]

/-- C5 counterexample: with zero constant operands the adapter raises
(IndexError on `constant_operands[0]`) instead of returning the original
accelerator: the guard only checks `len(constant_operands) > 1`. -/
theorem modify_zero_constant_raises :
    modify_innermost_input_mem_size diagAccel1
        (DiagLayer.mk [] ["I"] [("I", "I1")] []) 1
        [("D1", [("OX", 4)])] = none := by
  decide

/-- C5 (amended): given at least one constant operand, the adapter degrades
to a no-op returning the original accelerator and raising nothing whenever a
precondition is unmet: more than one constant operand; or (for exactly one
constant operand, with the activation operand and its lookups resolving) no
inner memory level holds the activation memory operand; or the serving level
serves a number of array dimensions different from one; or the computed
memory scaling factor is 1. -/
theorem modify_unmet_precondition_noop (accelerator : DiagAccelerator)
    (layer : DiagLayer) (core_id : ℤ) (usm : UserSpatialMapping) (core : DiagCore)
    (hcore : accelerator.get_core core_id = some core)
    (h : 1 < layer.constant_operands.length ∨
      (∃ c act wir mo,
        layer.constant_operands = [c] ∧
        (layer.input_operands.filter (fun op => op ≠ c))[0]? = some act ∧
        layer.operand_loop_dim.lookup c = some wir ∧
        layer.memory_operand_links.lookup act = some mo ∧
        (lastInnerAct core.memory_hierarchy mo = none ∨
          (∃ idx lvl, lastInnerAct core.memory_hierarchy mo = some (idx, lvl) ∧
            (lvl.served_dimensions.length ≠ 1 ∨
              (∃ dn, lvl.served_dimensions = [dn] ∧
                diag_mem_scaling_factor usm dn wir.ir = 1)))))) :
    modify_innermost_input_mem_size accelerator layer core_id usm =
      some (false, accelerator) := by
  unfold modify_innermost_input_mem_size
  simp only [Option.bind_eq_bind]
  rw [hcore]
  simp only [Option.some_bind]
  rcases h with hlen | ⟨c, act, wir, mo, hc, hact, hwir, hmo, hrest⟩
  · rw [if_pos hlen]
    rfl
  · rw [if_neg (by rw [hc]; simp)]
    rw [hc]
    simp only [List.getElem?_cons_zero, Option.some_bind]
    rw [hact]
    simp only [Option.some_bind]
    rw [hwir]
    simp only [Option.some_bind]
    rw [hmo]
    simp only [Option.some_bind]
    rcases hrest with hnone | ⟨idx, lvl, hlast, hcase⟩
    · rw [hnone]
      rfl
    · rw [hlast]
      dsimp only
      rcases hcase with hlen1 | ⟨dn, hdn, hfac⟩
      · rw [if_pos hlen1]
        rfl
      · rw [if_neg (by rw [hdn]; simp)]
        rw [hdn]
        simp only [List.getElem?_cons_zero, Option.some_bind]
        rw [if_pos hfac]
        rfl

/-- C5 witness: the no-op theorem applied to the concrete weight-stationary
layer when the user mapping has no loop on the served dimension `D1` (memory
scaling factor 1). -/
theorem modify_unmet_precondition_noop_witness :
    modify_innermost_input_mem_size diagAccel1 diagLayer1 1 [("D2", [("K", 8)])] =
      some (false, diagAccel1) := by
  refine modify_unmet_precondition_noop diagAccel1 diagLayer1 1 [("D2", [("K", 8)])]
    diagCore1 (by decide) (Or.inr ⟨"W", "I", OperandLoops.mk ["K", "C"] ["OX"] [],
      "I1", by decide, by decide, by decide, by decide,
      Or.inr ⟨0, diagLvlI, by decide, Or.inr ⟨"D1", by decide, by decide⟩⟩⟩)

/-- At index `j`, the rebuilt level list agrees with the original list
through the rebuild function applied at `j`. -/
theorem enum_map_getElem? {α : Type} (l : List α) (f : ℕ × α → α) (j : ℕ) :
    (l.enum.map f)[j]? = (l[j]?).map (fun a => f (j, a)) := by
  cases hl : l[j]? with
  | none => simp [List.getElem?_map, List.getElem?_enum, hl]
  | some a => simp [List.getElem?_map, List.getElem?_enum, hl]

/-- C6: when the preconditions hold and the scaling factor `f` differs from 1,
the adapter returns a fresh accelerator with a suffixed (hence distinct) name
holding a single rebuilt core: same core id, operational array and dataflows;
a memory hierarchy with a suffixed name and the same number of levels, where
every level other than the identified innermost activation level `idx` is
unchanged (instance, operands, port allocation and served dimensions alike)
and level `idx` differs only in its memory-instance size, multiplied by `f`.
The accelerator passed in is returned untouched in the no-op cases and is
never mutated (the embedding is a pure value transformation, as the source's
deep copies make it). -/
theorem modify_scales_exactly_one (accelerator : DiagAccelerator) (layer : DiagLayer)
    (core_id : ℤ) (usm : UserSpatialMapping) (core : DiagCore) (c act : String)
    (wir : OperandLoops) (mo : String) (idx : ℕ) (lvl : MemoryLevel) (dn : String)
    (f : ℤ)
    (hcore : accelerator.get_core core_id = some core)
    (hc : layer.constant_operands = [c])
    (hact : (layer.input_operands.filter (fun op => op ≠ c))[0]? = some act)
    (hwir : layer.operand_loop_dim.lookup c = some wir)
    (hmo : layer.memory_operand_links.lookup act = some mo)
    (hlast : lastInnerAct core.memory_hierarchy mo = some (idx, lvl))
    (hdn : lvl.served_dimensions = [dn])
    (hf : diag_mem_scaling_factor usm dn wir.ir = f)
    (hf1 : f ≠ 1) :
    ∃ A2 C2,
      modify_innermost_input_mem_size accelerator layer core_id usm = some (true, A2) ∧
      A2.name = accelerator.name ++ "-supporting-diagonal-map" ∧
      A2.name ≠ accelerator.name ∧
      A2.cores = [C2] ∧
      C2.id = core.id ∧
      C2.operational_array = core.operational_array ∧
      C2.dataflows = core.dataflows ∧
      C2.memory_hierarchy.name =
        core.memory_hierarchy.name ++ "-supporting-diagonal-map" ∧
      C2.memory_hierarchy.mem_level_list.length =
        core.memory_hierarchy.mem_level_list.length ∧
      (∀ j, j ≠ idx →
        C2.memory_hierarchy.mem_level_list[j]? =
          core.memory_hierarchy.mem_level_list[j]?) ∧
      (∀ lvlj, core.memory_hierarchy.mem_level_list[idx]? = some lvlj →
        C2.memory_hierarchy.mem_level_list[idx]? = some (MemoryLevel.mk
          (MemoryInstance.mk lvlj.memory_instance.name
            (lvlj.memory_instance.size * f))
          lvlj.operands lvlj.port_alloc_raw lvlj.served_dimensions
          lvlj.is_inner)) := by
  unfold modify_innermost_input_mem_size
  simp only [Option.bind_eq_bind]
  rw [hcore]
  simp only [Option.some_bind]
  rw [if_neg (by rw [hc]; simp)]
  rw [hc]
  simp only [List.getElem?_cons_zero, Option.some_bind]
  rw [hact]
  simp only [Option.some_bind]
  rw [hwir]
  simp only [Option.some_bind]
  rw [hmo]
  simp only [Option.some_bind]
  rw [hlast]
  dsimp only
  rw [if_neg (by rw [hdn]; simp)]
  rw [hdn]
  simp only [List.getElem?_cons_zero, Option.some_bind]
  rw [hf, if_neg hf1]
  refine ⟨_, _, rfl, rfl, ?_, rfl, rfl, rfl, rfl, rfl, ?_, ?_, ?_⟩
  · intro hco
    have h2 := congrArg String.length hco
    rw [String.length_append] at h2
    have h3 : ("-supporting-diagonal-map" : String).length = 24 := rfl
    omega
  · simp
  · intro j hj
    rw [enum_map_getElem?]
    cases hl : core.memory_hierarchy.mem_level_list[j]? with
    | none => rfl
    | some a => simp [hj]
  · intro lvlj hli
    rw [enum_map_getElem?, hli]
    simp

/-- C6 witness: on the concrete weight-stationary layer with the user mapping
unrolling `OX` by 4 on `D1` (the dimension served by the inner activation
register file of size 16), the adapter reports an update and the original
accelerator value is distinct from the returned one. -/
theorem modify_scales_exactly_one_witness :
    (modify_innermost_input_mem_size diagAccel1 diagLayer1 1
        [("D1", [("OX", 4)]), ("D2", [("K", 8)])]).map Prod.fst = some true := by
  obtain ⟨A2, C2, heq, -, -, -, -, -, -, -, -, -, -⟩ :=
    modify_scales_exactly_one diagAccel1 diagLayer1 1
      [("D1", [("OX", 4)]), ("D2", [("K", 8)])] diagCore1 "W" "I"
      (OperandLoops.mk ["K", "C"] ["OX"] []) "I1" 0 diagLvlI "D1" 4
      (by decide) (by decide) (by decide) (by decide) (by decide) (by decide)
      (by decide) (by decide) (by decide)
  rw [heq]
  rfl
